import Mathlib

/-!
Shallow embedding of `python_statement/statement.py` (the congress-scraper
repository): the `Utils` helpers, the `Feed` RSS/Atom parser with its batch
entry point, and the `Scraper.crapo` / `Scraper.meeks` adapters, together with
models of the library calls they make (`urllib.parse`, `datetime.strptime`,
`dateutil.parser.parse`).  Python dictionaries holding records are embedded as
a `Record` structure whose optional fields are `Option`s; a list slot that may
hold `None` instead of a record is an `Option Record`.  Code that can raise is
embedded in `Except String`.  String primitives are re-implemented over
character lists by structural recursion so that every definition evaluates
inside the kernel.
-/

/-- A calendar date as produced by `datetime.date`. -/
structure Date where
  year : Nat
  month : Nat
  day : Nat
deriving DecidableEq, Repr

/-- Is `pre` an initial segment of the first list? -/
def startsWithCs : List Char → List Char → Bool
  | _, [] => true
  | [], _ :: _ => false
  | c :: cs, p :: ps => c = p && startsWithCs cs ps

/-- Python `str.startswith`. -/
def pyStartsWith (s pre : String) : Bool :=
  startsWithCs s.data pre.data

/-- Python `str.endswith`. -/
def pyEndsWith (s suf : String) : Bool :=
  startsWithCs s.data.reverse suf.data.reverse

/-- Fuel-driven splitter on a non-empty separator; the fuel is the input
length plus one, which always suffices since every step consumes at least one
character. -/
def splitOnFuel (sep : List Char) : Nat → List Char → List Char → List (List Char)
  | 0, cs, acc => [acc.reverse ++ cs]
  | _ + 1, [], acc => [acc.reverse]
  | fuel + 1, c :: cs, acc =>
    if startsWithCs (c :: cs) sep then
      acc.reverse :: splitOnFuel sep fuel ((c :: cs).drop sep.length) []
    else splitOnFuel sep fuel cs (c :: acc)

def splitOnCs (sep cs : List Char) : List (List Char) :=
  if sep = [] then [cs] else splitOnFuel sep (cs.length + 1) cs []

/-- Python `str.split(sep)` / Lean `String.splitOn` semantics. -/
def pySplitOn (s sep : String) : List String :=
  (splitOnCs sep.data s.data).map List.asString

/-- ASCII lower-casing, as `str.lower` performs on the inputs used here. -/
def pyLower (s : String) : String :=
  (s.data.map Char.toLower).asString

/-- Python `str.strip()`: drop whitespace on both ends. -/
def pyStrip (s : String) : String :=
  (((s.data.dropWhile Char.isWhitespace).reverse.dropWhile Char.isWhitespace).reverse).asString

def pyLen (s : String) : Nat := s.data.length

/-- Drop the last `n` characters. -/
def pyDropRight (s : String) (n : Nat) : String :=
  (s.data.take (s.data.length - n)).asString

/-- Python slicing `s[n:]` by code points. -/
def pyDropLeft (s : String) (n : Nat) : String :=
  (s.data.drop n).asString

/-- `sep.join(parts)`. -/
def joinWith (sep : String) : List String → String
  | [] => ""
  | [x] => x
  | x :: xs => x ++ sep ++ joinWith sep xs

/-- The Python `in` operator on strings: substring containment. -/
def strContains (s pat : String) : Bool :=
  pat = "" || (pySplitOn s pat).length ≠ 1

/-- Python f-string interpolation of a value that may be `None`. -/
def pyStr : Option String → String
  | some s => s
  | none => "None"

/-- Digit characters to a number, most significant first. -/
def digitsVal (cs : List Char) : Nat :=
  cs.foldl (fun a c => a * 10 + (c.toNat - 48)) 0

def allDigits (cs : List Char) : Bool :=
  cs ≠ [] && cs.all Char.isDigit

def natOfStr (s : String) : Option Nat :=
  if allDigits s.data then some (digitsVal s.data) else none

def monthAbbrevs : List (String × Nat) :=
  [("jan", 1), ("feb", 2), ("mar", 3), ("apr", 4), ("may", 5), ("jun", 6),
   ("jul", 7), ("aug", 8), ("sep", 9), ("oct", 10), ("nov", 11), ("dec", 12)]

def monthNames : List (String × Nat) :=
  [("january", 1), ("february", 2), ("march", 3), ("april", 4), ("may", 5),
   ("june", 6), ("july", 7), ("august", 8), ("september", 9), ("october", 10),
   ("november", 11), ("december", 12)]

def lookupMonth (tbl : List (String × Nat)) (s : String) : Option Nat :=
  (tbl.find? (fun p => p.1 = pyLower s)).map (fun p => p.2)

/-- Models the external `dateutil.parser.parse(s).date()` call restricted to
the date shapes this module feeds it: RFC-2822 style feed dates such as
"Mon, 01 Jan 2024 00:00:00 GMT" and slash dates such as "3/14/2014" with the
month first.  `none` stands for the `ValueError`/`TypeError` the library
raises on unparseable text, which the callers in the source catch. -/
def dateutil_parse (s : String) : Option Date :=
  let toks := (pySplitOn s " ").filter (fun t => t ≠ "")
  match toks with
  | [wk, d, mon, y, _t, _z] =>
    if pyEndsWith wk "," then
      match natOfStr d, lookupMonth monthAbbrevs mon, natOfStr y with
      | some dv, some mv, some yv =>
        if 1 ≤ dv && dv ≤ 31 && pyLen y = 4 then some ⟨yv, mv, dv⟩ else none
      | _, _, _ => none
    else none
  | [one] =>
    match pySplitOn one "/" with
    | [m, d, y] =>
      match natOfStr m, natOfStr d, natOfStr y with
      | some mv, some dv, some yv =>
        if 1 ≤ mv && mv ≤ 12 && 1 ≤ dv && dv ≤ 31 && pyLen y = 4 then
          some ⟨yv, mv, dv⟩
        else none
      | _, _, _ => none
    | _ => none
  | _ => none

/-- Shape of the `%z` directive of `strptime`: a mandatory UTC offset. -/
def offsetShape : List Char → Bool
  | ['Z'] => true
  | [sg, a, b, c, d] => (sg = '+' || sg = '-') && [a, b, c, d].all Char.isDigit
  | [sg, a, b, cl, c, d] =>
    (sg = '+' || sg = '-') && cl = ':' && [a, b, c, d].all Char.isDigit
  | _ => false

/-- Models `datetime.datetime.strptime(s, "%Y-%m-%dT%H:%M:%S%z").date()`:
the fixed ISO-8601-with-offset shape, `none` where `strptime` raises. -/
def strptime_iso8601_offset (s : String) : Option Date :=
  match s.data.take 19, s.data.drop 19 with
  | [y1, y2, y3, y4, s1, m1, m2, s2, d1, d2, t1, h1, h2, c1, n1, n2, c2, e1, e2], off =>
    if [y1, y2, y3, y4, m1, m2, d1, d2, h1, h2, n1, n2, e1, e2].all Char.isDigit
        && s1 = '-' && s2 = '-' && t1 = 'T' && c1 = ':' && c2 = ':'
        && offsetShape off then
      let y := digitsVal [y1, y2, y3, y4]
      let mo := digitsVal [m1, m2]
      let da := digitsVal [d1, d2]
      let hh := digitsVal [h1, h2]
      let mi := digitsVal [n1, n2]
      let sec := digitsVal [e1, e2]
      if 1 ≤ mo && mo ≤ 12 && 1 ≤ da && da ≤ 31 && hh ≤ 23 && mi ≤ 59 && sec ≤ 61
      then some ⟨y, mo, da⟩ else none
    else none
  | _, _ => none

/-- Models `strptime(s, "%B %d, %Y").date()`: full month name, day, comma,
four-digit year; `none` where `strptime` raises. -/
def strptime_BdY (s : String) : Option Date :=
  match pySplitOn s " " with
  | [mon, dc, y] =>
    if pyEndsWith dc "," then
      match lookupMonth monthNames mon, natOfStr (pyDropRight dc 1), natOfStr y with
      | some mv, some dv, some yv =>
        if 1 ≤ dv && dv ≤ 31 && pyLen (pyDropRight dc 1) ≤ 2 && pyLen y = 4 then
          some ⟨yv, mv, dv⟩
        else none
      | _, _, _ => none
    else none
  | _ => none

/-- Models `strptime(s, "%m.%d.%y").date()` with Python's two-digit-year
window (00-68 maps to 2000-2068, 69-99 to 1969-1999). -/
def strptime_mdy_dots (s : String) : Option Date :=
  match pySplitOn s "." with
  | [m, d, y] =>
    match natOfStr m, natOfStr d, natOfStr y with
    | some mv, some dv, some yv =>
      if 1 ≤ mv && mv ≤ 12 && 1 ≤ dv && dv ≤ 31 && pyLen y = 2
          && pyLen m ≤ 2 && pyLen d ≤ 2 then
        some ⟨(if yv ≤ 68 then 2000 + yv else 1900 + yv), mv, dv⟩
      else none
    | _, _, _ => none
  | _ => none

/-- The components returned by `urllib.parse.urlparse` (the `params`
component, unused by this module, is omitted). -/
structure UrlParts where
  scheme : String
  netloc : String
  path : String
  query : String
  fragment : String
deriving DecidableEq, Repr

/-- Split a character list at the first occurrence of `c`. -/
def splitFirst (c : Char) : List Char → Option (List Char × List Char)
  | [] => none
  | x :: xs =>
    if x = c then some ([], xs)
    else
      match splitFirst c xs with
      | none => none
      | some (a, b) => some (x :: a, b)

def schemeChar (c : Char) : Bool :=
  c.isAlphanum || c = '+' || c = '-' || c = '.'

def validSchemeCs : List Char → Bool
  | [] => false
  | c :: cs => c.isAlpha && cs.all schemeChar

def netStop (c : Char) : Bool :=
  c = '/' || c = '?' || c = '#'

/-- Models `urllib.parse.urlparse`: the scheme is split off at the first colon
when the prefix before it is a valid scheme, the authority follows a leading
"//" up to the next `/`, `?` or `#`, then the fragment and query are split
off. -/
def urlparse (s : String) : UrlParts :=
  let cs := s.data
  let sp :=
    match splitFirst ':' cs with
    | some (pre, post) =>
      if validSchemeCs pre then (pre.map Char.toLower, post) else (([] : List Char), cs)
    | none => (([] : List Char), cs)
  let np :=
    if startsWithCs sp.2 ['/', '/'] then
      ((sp.2.drop 2).takeWhile (fun c => !netStop c),
       (sp.2.drop 2).dropWhile (fun c => !netStop c))
    else (([] : List Char), sp.2)
  let fp := (splitFirst '#' np.2).getD (np.2, [])
  let qp := (splitFirst '?' fp.1).getD (fp.1, [])
  ⟨sp.1.asString, np.1.asString, qp.1.asString, qp.2.asString, fp.2.asString⟩

def netlocOf (s : String) : String := (urlparse s).netloc

def pathOf (s : String) : String := (urlparse s).path

/-- A URL has scheme and authority present: the spec's notion of an absolute
URL. -/
def isAbsoluteUrl (s : String) : Bool :=
  (urlparse s).scheme ≠ "" && (urlparse s).netloc ≠ ""

/-- Models `urllib.parse.urlunparse` on the components above, assembled at
the character-list level: when an authority is present (or the path begins
with "//") it is emitted after "//" with the path forced to begin with a
slash, then the scheme with its colon is prefixed and the query and fragment
appended. -/
def urlunparseCs (p : UrlParts) : List Char :=
  let u := p.path.data
  let u :=
    if p.netloc ≠ "" || startsWithCs u ['/', '/'] then
      '/' :: '/' :: (p.netloc.data ++ (if u ≠ [] && !startsWithCs u ['/'] then '/' :: u else u))
    else u
  let u := if p.scheme ≠ "" then p.scheme.data ++ ':' :: u else u
  let u := if p.query ≠ "" then u ++ '?' :: p.query.data else u
  if p.fragment ≠ "" then u ++ '#' :: p.fragment.data else u

def urlunparse (p : UrlParts) : String :=
  (urlunparseCs p).asString

/-- `urllib.parse.uses_relative`. -/
def uses_relative : List String :=
  ["", "ftp", "http", "gopher", "nntp", "imap", "wais", "file", "https",
   "shttp", "mms", "prospero", "rtsp", "rtspu", "sftp", "svn", "svn+ssh",
   "ws", "wss"]

/-- `urllib.parse.uses_netloc`. -/
def uses_netloc : List String :=
  ["", "ftp", "http", "gopher", "nntp", "telnet", "imap", "wais", "file",
   "mms", "https", "shttp", "snews", "prospero", "rtsp", "rtspu", "rsync",
   "svn", "svn+ssh", "sftp", "nfs", "git", "git+ssh", "ws", "wss",
   "itms-services"]

/-- `segments[1:-1] = filter(None, segments[1:-1])` from `urljoin`: drop empty
interior segments, keeping the first and last. -/
def filterInterior : List String → List String
  | [] => []
  | [x] => [x]
  | x :: rest => x :: ((rest.dropLast.filter (fun sg => sg ≠ "")) ++ [rest.getLastD ""])

/-- The dot-segment resolution loop of `urljoin`. -/
def resolveSegs (segs : List String) : List String :=
  let res := segs.foldl
    (fun acc sg =>
      if sg = ".." then acc.dropLast
      else if sg = "." then acc
      else acc ++ [sg]) []
  if segs.getLastD "x" = "." || segs.getLastD "x" = ".." then res ++ [""] else res

/-- Relative-path merge of `urljoin`: drop the base path's last segment (when
non-empty), append the link's segments, resolve dots. -/
def mergePaths (bpath upath : String) : String :=
  let segs :=
    if pyStartsWith upath "/" then pySplitOn upath "/"
    else
      let bp := pySplitOn bpath "/"
      let bp := if bp.getLastD "" ≠ "" then bp.dropLast else bp
      filterInterior (bp ++ pySplitOn upath "/")
  let joined := joinWith "/" (resolveSegs segs)
  if joined = "" then "/" else joined

/-- The component-level merge `urljoin` performs once the early returns are
passed (the link supplied no authority of its own, or its scheme does not use
one). -/
def mergeParts (scheme : String) (b u : UrlParts) : UrlParts :=
  let netloc := if uses_netloc.contains scheme then b.netloc else u.netloc
  if u.path = "" then
    ⟨scheme, netloc, b.path, (if u.query = "" then b.query else u.query), u.fragment⟩
  else
    ⟨scheme, netloc, mergePaths b.path u.path, u.query, u.fragment⟩

/-- Models `urllib.parse.urljoin`. -/
def urljoin (base url : String) : String :=
  if base = "" then url
  else if url = "" then base
  else
    let b := urlparse base
    let u := urlparse url
    let scheme := if u.scheme = "" then b.scheme else u.scheme
    if scheme ≠ b.scheme || !uses_relative.contains scheme then url
    else if uses_netloc.contains scheme && u.netloc ≠ "" then
      urlunparse ⟨scheme, u.netloc, u.path, u.query, u.fragment⟩
    else urlunparse (mergeParts scheme b u)

namespace Utils

/-- Embeds `Utils.absolute_link`: return the link as-is when it starts with
"http", else join it onto the base with `urllib.parse.urljoin`. -/
def absolute_link (url link : String) : String :=
  if pyStartsWith link "http" then link else urljoin url link

end Utils

/-- The canonical record dictionary built by every parser and adapter.  `url`
is an `Option` because adapters store `link.get('href')` directly, which is
`None` when the attribute is missing; an absent `url` key and a `None`-valued
`url` key behave identically for every use in this module. -/
structure Record where
  source : String
  url : Option String
  title : String
  date : Option Date
  domain : String
deriving DecidableEq, Repr

namespace Utils

/-- First comprehension of `remove_generic_urls`: `r and 'url' in r`. -/
def has_url : Option Record → Bool
  | some r => r.url.isSome
  | none => false

/-- `urlparse(r['url']).path in ['/news/', '/news']` on a kept record. -/
def generic_path : Option Record → Bool
  | some r =>
    match r.url with
    | some u => pathOf u = "/news/" || pathOf u = "/news"
    | none => false
  | none => false

/-- Embeds `Utils.remove_generic_urls`: drop absent records and records
without a `url`, then drop records whose URL path is a generic index path. -/
def remove_generic_urls (results : List (Option Record)) : List (Option Record) :=
  if results.isEmpty then []
  else (results.filter has_url).filter (fun r => !generic_path r)

end Utils

/-- An `<item>` element of an RSS document, as the queries in the source see
it: the text of its first `link`, `title`, `pubDate` and `pubdate` children
(`none` when the child element is absent). -/
structure RssItem where
  link : Option String
  title : Option String
  pubDate : Option String
  pubdate : Option String
deriving DecidableEq, Repr

/-- An Atom `<link>` element: its `href` attribute may be absent. -/
structure AtomLink where
  href : Option String
deriving DecidableEq, Repr

/-- An `<entry>` element of an Atom document. -/
structure AtomEntry where
  link : Option AtomLink
  title : Option String
  published : Option String
  updated : Option String
deriving DecidableEq, Repr

/-- A fetched feed document; the constructor records whether the document has
a `feed` root element (Atom) or is treated as RSS. -/
inductive FeedDoc
  | atom (entries : List AtomEntry)
  | rss (items : List RssItem)
deriving DecidableEq, Repr

/-- Outcome of `Feed.open_rss`: `fail` models a raised `requests` exception
(the function prints and returns `None`), `ok` a parsed document. -/
inductive Fetched
  | fail
  | ok (doc : FeedDoc)
deriving DecidableEq, Repr

namespace Feed

/-- The repeated `try: parse(tag.text) except: pass` block of
`date_from_rss_item`, applied to one optional tag: present, non-empty text is
parsed, with failures falling through to `none`. -/
def try_tag_date (tag : Option String) : Option Date :=
  match tag with
  | some t => if t ≠ "" then dateutil_parse t else none
  | none => none

/-- Embeds `Feed.date_from_rss_item`: try `pubDate`, then `pubdate`, then the
Mikulski URL-path special case; every parse failure is caught, so the result
is `none` rather than an error when everything fails. -/
def date_from_rss_item (item : RssItem) : Option Date :=
  match try_tag_date item.pubDate with
  | some d => some d
  | none =>
    match try_tag_date item.pubdate with
    | some d => some d
    | none =>
      match item.link with
      | some lt =>
        if lt ≠ "" && strContains lt "mikulski.senate.gov" && strContains lt "-2014" then
          let lastSeg := (pySplitOn lt "/").getLastD ""
          let date_str := ((pySplitOn (joinWith "/" ((pySplitOn lastSeg "-").take 3)) ".cfm").headD "")
          dateutil_parse date_str
        else none
      | none => none

/-- The Burr feed URL special-cased in `parse_rss`. -/
def burr_url : String := "http://www.burr.senate.gov/public/index.cfm?FuseAction=RSS.Feed"

/-- The Johanns feed URL special-cased in `parse_rss`. -/
def johanns_url : String := "http://www.johanns.senate.gov/public/?a=RSS.Feed"

/-- The per-item loop of `Feed.parse_rss`: skip items without a `link`
element, default the title to the empty string, resolve the link against the
feed URL (with the two per-source rewrites), and take the domain from the feed
URL. -/
def parse_rss_extract (items : List RssItem) (url : String) : List Record :=
  items.filterMap (fun item =>
    match item.link with
    | none => none
    | some link =>
      let abs0 := Utils.absolute_link url link
      let abs_link :=
        if url = burr_url then "http://www.burr.senate.gov/public/" ++ link
        else if url = johanns_url then pyDropLeft link 37
        else abs0
      some { source := url, url := some abs_link,
             title := item.title.getD "",
             date := date_from_rss_item item,
             domain := netlocOf url })

/-- Embeds `Feed.parse_rss`: the extracted records pass through
`Utils.remove_generic_urls` before being returned. -/
def parse_rss (items : List RssItem) (url : String) : List (Option Record) :=
  if items.isEmpty then []
  else Utils.remove_generic_urls ((parse_rss_extract items url).map some)

/-- The date computation of one Atom entry: `published` falling back to
`updated` (element presence, as Python's `or` on tags), then the bare
`strptime` call — which has no surrounding `try`, so a parse failure is a
raised `ValueError`, embedded as `Except.error`. -/
def atom_entry_date (e : AtomEntry) : Except String (Option Date) :=
  match e.published.orElse (fun _ => e.updated) with
  | none => .ok none
  | some t =>
    match strptime_iso8601_offset t with
    | some d => .ok (some d)
    | none => .error "ValueError: time data does not match format"

/-- The per-entry loop of `Feed.parse_atom`: skip entries without a `link`
element; a raised `ValueError` from the date computation aborts the whole
call. -/
def parse_atom_items (url : String) : List AtomEntry → Except String (List Record)
  | [] => .ok []
  | e :: rest =>
    match e.link with
    | none => parse_atom_items url rest
    | some link =>
      match atom_entry_date e with
      | .error msg => .error msg
      | .ok date =>
        (parse_atom_items url rest).map (fun rs =>
          { source := url, url := link.href,
            title := e.title.getD "",
            date := date,
            domain := netlocOf url } :: rs)

/-- Embeds `Feed.parse_atom`.  The result list is returned directly, without
the `Utils.remove_generic_urls` filtering step the RSS branch performs. -/
def parse_atom (entries : List AtomEntry) (url : String) : Except String (List Record) :=
  if entries.isEmpty then .ok [] else parse_atom_items url entries

/-- Embeds `Feed.from_rss` over an environment that models the network: a
failed fetch yields `None` from `open_rss`, hence an empty list; an Atom
document (one with a `feed` root) goes to `parse_atom`, everything else to
`parse_rss`. -/
def from_rss (env : String → Fetched) (url : String) : Except String (List (Option Record)) :=
  match env url with
  | .fail => .ok []
  | .ok (.atom entries) => (parse_atom entries url).map (List.map some)
  | .ok (.rss items) => .ok (parse_rss items url)

/-- One step of the `Feed.batch` loop: a raised exception or an empty result
list sends the URL to `failures`, a non-empty result extends `results`. -/
def batch_step (env : String → Fetched) (acc : List (Option Record) × List String)
    (url : String) : List (Option Record) × List String :=
  match from_rss env url with
  | .error _ => (acc.1, acc.2 ++ [url])
  | .ok rs => if rs.isEmpty then (acc.1, acc.2 ++ [url]) else (acc.1 ++ rs, acc.2)

/-- Embeds `Feed.batch`: fold the step over the URLs.  The `try`/`except`
around each URL is what makes the step total, so `batch` itself is a total
function — it never raises. -/
def batch (env : String → Fetched) (urls : List String) :
    List (Option Record) × List String :=
  urls.foldl (batch_step env) ([], [])

end Feed

/-- An anchor element as the adapters query it: `href` attribute (may be
absent) and text content. -/
structure Anchor where
  href : Option String
  text : String
deriving DecidableEq, Repr

/-- A `div.ArticleBlock` container on the Crapo listing page: its first `a`
element and the text of its first `p` element. -/
structure ArticleBlock where
  a : Option Anchor
  p : Option String
deriving DecidableEq, Repr

/-- A `.views-row` container on the Meeks listing page: its first `a.h4`
element and the text of its first `.evo-card-date` element. -/
structure ViewsRow where
  link : Option Anchor
  date_elem : Option String
deriving DecidableEq, Repr

namespace Scraper

/-- The page URL `Scraper.crapo` builds for a page number. -/
def crapo_url (page : Nat) : String :=
  "https://www.crapo.senate.gov/media/newsreleases/?PageNum_rs=" ++ toString page ++ "&"

/-- The per-block loop of `Scraper.crapo` on a fetched document: the record's
`url` is the raw `href` attribute, its `domain` the hard-coded constant; the
date text is tried against `%m.%d.%y` then `%B %d, %Y`, failures giving
`None`. -/
def crapo (blocks : List ArticleBlock) (page : Nat) : List Record :=
  blocks.filterMap (fun block =>
    match block.a with
    | none => none
    | some link =>
      let date : Option Date :=
        match block.p with
        | none => none
        | some t =>
          if t ≠ "" then
            match strptime_mdy_dots t with
            | some d => some d
            | none => strptime_BdY t
          else none
      some { source := crapo_url page, url := link.href,
             title := pyStrip link.text, date := date,
             domain := "www.crapo.senate.gov" })

/-- The page URL `Scraper.meeks` builds for a page number. -/
def meeks_url (page : Nat) : String :=
  "https://meeks.house.gov/media/press-releases?page=" ++ toString page

/-- The body of `Scraper.meeks` on a fetched document: only the first 10
`.views-row` containers are processed; rows missing the link or the date
element are skipped; the `href` is interpolated into an f-string after the
fixed host. -/
def meeks (rows : List ViewsRow) (page : Nat) : List Record :=
  (rows.take 10).filterMap (fun row =>
    match row.link, row.date_elem with
    | some link, some dtext =>
      some { source := meeks_url page,
             url := some ("https://meeks.house.gov" ++ pyStr link.href),
             title := pyStrip link.text,
             date := strptime_BdY (pyStrip dtext),
             domain := "meeks.house.gov" }
    | _, _ => none)

end Scraper


namespace Feed

/-- The records one URL contributes to the batch successes: its parse result,
or nothing when processing raised. -/
def url_result (env : String → Fetched) (url : String) : List (Option Record) :=
  match from_rss env url with
  | .ok rs => rs
  | .error _ => []

/-- Whether `batch` records the URL as a failure: processing raised, or the
result list was empty (which covers every fetch failure). -/
def url_fails (env : String → Fetched) (url : String) : Bool :=
  match from_rss env url with
  | .ok rs => rs.isEmpty
  | .error _ => true

end Feed

/-- Did the fetch itself fail for this source? -/
def isFetchFail : Fetched → Bool
  | .fail => true
  | .ok _ => false

/-- An environment in which every URL fetches successfully and yields an RSS
document with no items. -/
def env_empty_rss : String → Fetched := fun _ => .ok (.rss [])

/-- An environment in which every URL fetches successfully and yields an Atom
document whose single entry links to a generic index path. -/
def env_atom_generic : String → Fetched :=
  fun _ => .ok (.atom [⟨some ⟨some "http://x.gov/news/"⟩, some "t", none, none⟩])

/-- The record-keeping predicate as the claim words it: the record is present,
has a `url`, and the URL path is not a known generic index path. -/
def keeps_record : Option Record → Bool
  | none => false
  | some r =>
    match r.url with
    | none => false
    | some u => !(pathOf u = "/news/" || pathOf u = "/news")

/-- Try a date element's text against the parser, empty or missing text and
parse failures giving an unknown date. -/
def tryDateText : Option String → Option Date
  | some t => if t ≠ "" then dateutil_parse t else none
  | none => none

/-- The known source-domain pattern guarding the URL-path date fallback. -/
def known_link_pattern (lt : String) : Bool :=
  lt ≠ "" && strContains lt "mikulski.senate.gov" && strContains lt "-2014"

/-- The URL-path date fallback: date-like segments of the link's last path
component, joined with slashes, stripped of the file extension. -/
def url_path_date (lt : String) : Option Date :=
  let lastSeg := (pySplitOn lt "/").getLastD ""
  dateutil_parse ((pySplitOn (joinWith "/" ((pySplitOn lastSeg "-").take 3)) ".cfm").headD "")

/-- The date fallback chain as the spec words it: `pubDate`, then `pubdate`,
then the URL-path fallback applied only when the link matches the known
source-domain pattern; unknown when everything fails. -/
def date_resolve_spec (item : RssItem) : Option Date :=
  (tryDateText item.pubDate).orElse fun _ =>
    (tryDateText item.pubdate).orElse fun _ =>
      match item.link with
      | some lt => if known_link_pattern lt then url_path_date lt else none
      | none => none

/-- All characters of a netloc are legal inside an authority component (none
terminates it early). -/
def netlocWf (nl : String) : Bool :=
  nl.data.all (fun c => !netStop c)

/-- The RSS item of the spec's scenario: a link and an RFC-2822 `pubDate`,
no title. -/
def rssScenarioItem : RssItem :=
  ⟨some "http://x.gov/a", none, some "Mon, 01 Jan 2024 00:00:00 GMT", none⟩

/-- An `ArticleBlock` whose link carries a relative `href`. -/
def crapoRelBlock : ArticleBlock :=
  ⟨some ⟨some "/media/newsreleases/id-123", "Title"⟩, some "04.15.23"⟩

/-- The record `Scraper.crapo` produces from `crapoRelBlock`. -/
def crapoRelRecord : Record :=
  ⟨Scraper.crapo_url 1, some "/media/newsreleases/id-123", "Title",
   some ⟨2023, 4, 15⟩, "www.crapo.senate.gov"⟩

/-- An Atom entry with an href and no date elements. -/
def atomPlainEntry : AtomEntry :=
  ⟨some ⟨some "http://x.gov/a"⟩, some "T", none, none⟩

/-- The record `Feed.parse_atom` produces from `atomPlainEntry` at the feed
URL "http://feeds.example.com/x". -/
def atomPlainRecord : Record :=
  ⟨"http://feeds.example.com/x", some "http://x.gov/a", "T", none, "feeds.example.com"⟩

theorem rgu_eq_filter (x : List (Option Record)) :
    Utils.remove_generic_urls x
      = x.filter (fun r => Utils.has_url r && !Utils.generic_path r) := by
  unfold Utils.remove_generic_urls
  by_cases hx : x.isEmpty
  · rw [if_pos hx, List.isEmpty_iff.mp hx, List.filter_nil]
  · rw [if_neg hx, List.filter_filter]
    exact List.filter_congr fun a _ => by rw [Bool.and_comm]

theorem keeps_record_eq (r : Option Record) :
    (Utils.has_url r && !Utils.generic_path r) = keeps_record r := by
  rcases r with _ | r
  · rfl
  · rcases hu : r.url with _ | u
    · simp [Utils.has_url, Utils.generic_path, keeps_record, hu]
    · simp [Utils.has_url, Utils.generic_path, keeps_record, hu]

/-- C6: for every list of records (including `None` entries and records
without a `url` field), `Utils.remove_generic_urls` is idempotent. -/
theorem remove_generic_urls_idem (x : List (Option Record)) :
    Utils.remove_generic_urls (Utils.remove_generic_urls x) = Utils.remove_generic_urls x := by
  rw [rgu_eq_filter, rgu_eq_filter, List.filter_filter]
  exact List.filter_congr fun a _ => by rw [Bool.and_self]

/-- C7: the result filter keeps a record exactly when it is present, has a
`url`, and the URL path is not a known generic index path — so it is the
order-preserving `List.filter` of that predicate — and on the spec's scenario
it keeps exactly the release record. -/
theorem remove_generic_urls_keeps :
    (∀ l : List (Option Record), Utils.remove_generic_urls l = l.filter keeps_record)
    ∧ Utils.remove_generic_urls
        [some ⟨"", some "http://x.gov/news/", "", none, ""⟩,
         some ⟨"", some "http://x.gov/release/9", "", none, ""⟩, none]
      = [some ⟨"", some "http://x.gov/release/9", "", none, ""⟩] := by
  refine ⟨fun l => ?_, by decide⟩
  rw [rgu_eq_filter]
  exact List.filter_congr fun a _ => keeps_record_eq a

/-- C10: `Scraper.meeks` processes only the first 10 `.views-row` containers,
so it returns at most 10 records per call and ignores every row past the
tenth. -/
theorem meeks_at_most_ten (rows : List ViewsRow) (page : Nat) :
    (Scraper.meeks rows page).length ≤ 10
    ∧ Scraper.meeks rows page = Scraper.meeks (rows.take 10) page := by
  unfold Scraper.meeks
  refine ⟨le_trans (List.length_filterMap_le _ _) (List.length_take_le _ _), ?_⟩
  simp [List.take_take]

theorem batch_foldl (env : String → Fetched) :
    ∀ (urls : List String) (acc : List (Option Record) × List String),
      urls.foldl (Feed.batch_step env) acc
        = (acc.1 ++ urls.flatMap (Feed.url_result env),
           acc.2 ++ urls.filter (Feed.url_fails env))
  | [], acc => by simp
  | u :: rest, acc => by
    rw [List.foldl_cons, batch_foldl env rest]
    unfold Feed.batch_step Feed.url_fails Feed.url_result
    cases h : Feed.from_rss env u with
    | error e => simp [h]
    | ok rs =>
      by_cases hrs : rs.isEmpty
      · simp [h, hrs, List.isEmpty_iff.mp hrs]
      · simp [h, hrs]

/-- C1 (amended): `Feed.batch` is a total function of the per-URL outcomes
(the `try`/`except` around each URL absorbs every raised exception, so the
call never raises); its successes are the in-order concatenation of the
per-URL record lists, and its failures are exactly the URLs whose processing
raised **or whose result list was empty** — which includes every fetch
failure, but also successfully fetched feeds yielding no records. -/
theorem batch_characterization (env : String → Fetched) (urls : List String) :
    (Feed.batch env urls).1 = urls.flatMap (Feed.url_result env)
    ∧ (Feed.batch env urls).2 = urls.filter (Feed.url_fails env) := by
  unfold Feed.batch
  rw [batch_foldl]
  simp

/-- C1 counterexample: one URL fetches successfully but its feed has no
items, so zero sources fail to fetch (`K = 0`) while `failures` has length 1
— refuting `len(failures) == K`. -/
theorem batch_failures_not_fetch_failures :
    (["http://a.gov/feed"].filter (fun u => isFetchFail (env_empty_rss u))).length = 0
    ∧ (Feed.batch env_empty_rss ["http://a.gov/feed"]).2.length = 1 := by
  constructor
  · rfl
  · rfl

theorem parse_atom_items_mem (url : String) :
    ∀ (es : List AtomEntry) (res : List Record) (r : Record),
      Feed.parse_atom_items url es = .ok res → r ∈ res →
      r.domain = netlocOf url ∧ ∃ e ∈ es, ∃ l, e.link = some l ∧ r.url = l.href
  | [], res, r, h, hr => by
    simp only [Feed.parse_atom_items] at h
    cases h
    cases hr
  | e :: rest, res, r, h, hr => by
    simp only [Feed.parse_atom_items] at h
    cases hl : e.link with
    | none =>
      rw [hl] at h
      obtain ⟨hd, e', he', l, hl', hu⟩ := parse_atom_items_mem url rest res r h hr
      exact ⟨hd, e', List.mem_cons_of_mem _ he', l, hl', hu⟩
    | some link =>
      rw [hl] at h
      cases hdate : Feed.atom_entry_date e with
      | error msg => rw [hdate] at h; cases h
      | ok date =>
        rw [hdate] at h
        cases hrest : Feed.parse_atom_items url rest with
        | error msg => rw [hrest] at h; cases h
        | ok rs =>
          rw [hrest] at h
          simp only [Except.map, Except.ok.injEq] at h
          subst h
          rcases List.mem_cons.mp hr with hhd | htl
          · subst hhd
            exact ⟨rfl, e, List.mem_cons_self e rest, link, hl, rfl⟩
          · obtain ⟨hd, e', he', l, hl', hu⟩ := parse_atom_items_mem url rest rs r hrest htl
            exact ⟨hd, e', List.mem_cons_of_mem _ he', l, hl', hu⟩

theorem crapo_mem (blocks : List ArticleBlock) (page : Nat) (r : Record)
    (hr : r ∈ Scraper.crapo blocks page) :
    r.domain = "www.crapo.senate.gov" ∧ ∃ b ∈ blocks, ∃ l, b.a = some l ∧ r.url = l.href := by
  unfold Scraper.crapo at hr
  obtain ⟨b, hb, hfb⟩ := List.mem_filterMap.mp hr
  cases ha : b.a with
  | none => rw [ha] at hfb; cases hfb
  | some l =>
    rw [ha] at hfb
    simp only [Option.some.injEq] at hfb
    subst hfb
    exact ⟨rfl, b, hb, l, ha, rfl⟩

/-- C2 (amended): the cited adapters store the raw link `href` in the
record's `url` — which may be relative or absent, not necessarily a non-empty
absolute URL — and the `domain` field is a hard-coded constant
(`Scraper.crapo`) or the hostname of the *source* URL (`Feed.parse_atom`),
not a value derived from the record's own `url`. -/
theorem adapter_url_raw :
    (∀ (blocks : List ArticleBlock) (page : Nat) (r : Record),
        r ∈ Scraper.crapo blocks page →
        r.domain = "www.crapo.senate.gov"
        ∧ ∃ b ∈ blocks, ∃ l, b.a = some l ∧ r.url = l.href)
    ∧ (∀ (entries : List AtomEntry) (url : String) (res : List Record) (r : Record),
        Feed.parse_atom entries url = .ok res → r ∈ res →
        r.domain = netlocOf url
        ∧ ∃ e ∈ entries, ∃ l, e.link = some l ∧ r.url = l.href) := by
  refine ⟨crapo_mem, fun entries url res r h hr => ?_⟩
  unfold Feed.parse_atom at h
  by_cases he : entries.isEmpty
  · rw [if_pos he] at h
    cases h
    cases hr
  · rw [if_neg he] at h
    exact parse_atom_items_mem url entries res r h hr

/-- Witness for `adapter_url_raw` at concrete inputs on both branches. -/
theorem adapter_url_raw_witness :
    (crapoRelRecord.domain = "www.crapo.senate.gov"
      ∧ ∃ b ∈ [crapoRelBlock], ∃ l, b.a = some l ∧ crapoRelRecord.url = l.href)
    ∧ (atomPlainRecord.domain = netlocOf "http://feeds.example.com/x"
      ∧ ∃ e ∈ [atomPlainEntry], ∃ l, e.link = some l ∧ atomPlainRecord.url = l.href) :=
  ⟨adapter_url_raw.1 [crapoRelBlock] 1 crapoRelRecord (by decide),
   adapter_url_raw.2 [atomPlainEntry] "http://feeds.example.com/x" [atomPlainRecord]
     atomPlainRecord rfl (by decide)⟩

/-- C2 counterexample: on a page whose link carries a relative `href`,
`Scraper.crapo` returns a record whose `url` is that relative string — not a
non-empty absolute URL (no scheme, no authority), with no rewrite rule
involved. -/
theorem crapo_url_not_absolute :
    (Scraper.crapo [crapoRelBlock] 1).map (fun r => r.url)
      = [some "/media/newsreleases/id-123"]
    ∧ isAbsoluteUrl "/media/newsreleases/id-123" = false := by
  exact ⟨by decide, by decide⟩

/-- C3 (code bug): for an Atom entry whose `published` text does not parse
under the fixed ISO-8601-with-offset format, `Feed.parse_atom` raises a
`ValueError` (the `strptime` call at the Atom date line has no surrounding
`try`), instead of yielding a record with an unknown date as every other date
parse in the module does. -/
theorem parse_atom_bad_date_raises :
    Feed.parse_atom [⟨some ⟨some "http://x.gov/a"⟩, some "T", some "not-a-date", none⟩]
      "http://x.gov/atom"
    = .error "ValueError: time data does not match format" := rfl

theorem parse_rss_mem (items : List RssItem) (url : String) (o : Option Record)
    (ho : o ∈ Feed.parse_rss items url) :
    ∃ r, o = some r ∧ ∃ u, r.url = some u ∧ pathOf u ≠ "/news/" ∧ pathOf u ≠ "/news" := by
  unfold Feed.parse_rss at ho
  by_cases hi : items.isEmpty
  · rw [if_pos hi] at ho
    cases ho
  · rw [if_neg hi, rgu_eq_filter] at ho
    have hkeep := List.of_mem_filter ho
    have hmem := List.mem_of_mem_filter ho
    obtain ⟨r, _, rfl⟩ := List.mem_map.mp hmem
    refine ⟨r, rfl, ?_⟩
    cases hu : r.url with
    | none => rw [Utils.has_url, hu] at hkeep; simp [Utils.generic_path, hu] at hkeep
    | some u =>
      refine ⟨u, rfl, ?_, ?_⟩ <;>
      · intro hpath
        simp [Utils.has_url, Utils.generic_path, hu, hpath] at hkeep

/-- C4 (amended): the RSS branch of the feed parser filters its extracted
records through `Utils.remove_generic_urls` — so every record it returns is
present, has a `url`, and has a non-generic path — but the Atom branch
returns its extracted records unfiltered, so `Feed.from_rss` can return
records with a generic index path. -/
theorem feed_filtering_split :
    (∀ (items : List RssItem) (url : String) (o : Option Record),
        o ∈ Feed.parse_rss items url →
        ∃ r, o = some r ∧ ∃ u, r.url = some u ∧ pathOf u ≠ "/news/" ∧ pathOf u ≠ "/news")
    ∧ (∃ (entries : List AtomEntry) (url : String) (res : List Record),
        Feed.parse_atom entries url = .ok res
        ∧ Utils.remove_generic_urls (res.map some) ≠ res.map some) := by
  refine ⟨parse_rss_mem, ⟨[⟨some ⟨some "http://x.gov/news/"⟩, some "t", none, none⟩],
    "http://x.gov/atom", [⟨"http://x.gov/atom", some "http://x.gov/news/", "t", none, "x.gov"⟩],
    rfl, by decide⟩⟩

/-- Witness for `feed_filtering_split` at a concrete RSS input. -/
theorem feed_filtering_split_witness :
    ∃ r, (some ⟨"http://x.gov/rss.xml", some "http://x.gov/a", "", some ⟨2024, 1, 1⟩, "x.gov"⟩
            : Option Record) = some r
      ∧ ∃ u, r.url = some u ∧ pathOf u ≠ "/news/" ∧ pathOf u ≠ "/news" :=
  feed_filtering_split.1 [rssScenarioItem] "http://x.gov/rss.xml"
    (some ⟨"http://x.gov/rss.xml", some "http://x.gov/a", "", some ⟨2024, 1, 1⟩, "x.gov"⟩)
    (by decide)

/-- C4 counterexample: a fetched Atom document whose single entry links to
the generic index path "/news/" — `Feed.from_rss` returns that record even
though the generic-result filter would drop it, so the returned list is not
the filtered extraction. -/
theorem from_rss_atom_unfiltered :
    Feed.from_rss env_atom_generic "http://x.gov/atom"
      = .ok [some ⟨"http://x.gov/atom", some "http://x.gov/news/", "t", none, "x.gov"⟩]
    ∧ Utils.remove_generic_urls
        [some ⟨"http://x.gov/atom", some "http://x.gov/news/", "t", none, "x.gov"⟩] = [] := by
  exact ⟨rfl, by decide⟩

theorem date_chain_eq (item : RssItem) :
    Feed.date_from_rss_item item = date_resolve_spec item := by
  unfold Feed.date_from_rss_item date_resolve_spec
  have e1 : tryDateText item.pubDate = Feed.try_tag_date item.pubDate := rfl
  have e2 : tryDateText item.pubdate = Feed.try_tag_date item.pubdate := rfl
  rw [e1, e2]
  cases h1 : Feed.try_tag_date item.pubDate with
  | some d => rfl
  | none =>
    show _ = Option.orElse none _
    cases h2 : Feed.try_tag_date item.pubdate with
    | some d => rfl
    | none =>
      show _ = Option.orElse none _
      cases item.link with
      | none => rfl
      | some lt => rfl

theorem parse_rss_extract_length (url : String) :
    ∀ items : List RssItem,
      (Feed.parse_rss_extract items url).length
        = (items.filter (fun i => i.link.isSome)).length
  | [] => rfl
  | i :: rest => by
    have ih := parse_rss_extract_length url rest
    simp only [Feed.parse_rss_extract, List.filterMap_cons] at ih ⊢
    cases h : i.link with
    | none => simpa [h, List.filter_cons] using ih
    | some l => simpa [h, List.filter_cons] using ih

theorem parse_rss_title_default (item : RssItem) (url : String)
    (hl : item.link.isSome) (ht : item.title = none) :
    (Feed.parse_rss_extract [item] url).map (fun r => r.title) = [""] := by
  obtain ⟨l, hl'⟩ := Option.isSome_iff_exists.mp hl
  simp [Feed.parse_rss_extract, List.filterMap_cons, hl', ht]

/-- C8: `Feed.parse_rss` produces one record per item with a `link` element
and none for items without one; an absent `title` element defaults to the
empty string; and on the spec's scenario (one item with only a link and an
RFC-2822 `pubDate`, parsed at a feed URL on x.gov) it yields one record with
empty title, date 2024-01-01 and domain "x.gov". -/
theorem parse_rss_skip_and_defaults :
    (∀ (items : List RssItem) (url : String),
        (Feed.parse_rss_extract items url).length
          = (items.filter (fun i => i.link.isSome)).length)
    ∧ (∀ (item : RssItem) (url : String), item.link = none →
        Feed.parse_rss_extract [item] url = [])
    ∧ (∀ (item : RssItem) (url : String), item.link.isSome → item.title = none →
        (Feed.parse_rss_extract [item] url).map (fun r => r.title) = [""])
    ∧ Feed.parse_rss [rssScenarioItem] "http://x.gov/rss.xml"
      = [some ⟨"http://x.gov/rss.xml", some "http://x.gov/a", "", some ⟨2024, 1, 1⟩, "x.gov"⟩] := by
  refine ⟨fun items url => parse_rss_extract_length url items,
    fun item url hl => ?_, parse_rss_title_default, by decide⟩
  simp [Feed.parse_rss_extract, List.filterMap_cons, hl]

/-- Witness for `parse_rss_skip_and_defaults` at the scenario item. -/
theorem parse_rss_skip_and_defaults_witness :
    (Feed.parse_rss_extract [⟨none, none, none, none⟩] "http://x.gov/rss.xml" = [])
    ∧ (Feed.parse_rss_extract [rssScenarioItem] "http://x.gov/rss.xml").map
        (fun r => r.title) = [""] :=
  ⟨parse_rss_skip_and_defaults.2.1 ⟨none, none, none, none⟩ "http://x.gov/rss.xml" rfl,
   parse_rss_skip_and_defaults.2.2.1 rssScenarioItem "http://x.gov/rss.xml" rfl rfl⟩

/-- C9: the RSS date resolution tries, in order, the `pubDate` element, the
lower-case `pubdate` element, then the URL-path fallback — applied only when
the link matches the known source-domain pattern — and yields `none` without
raising when every step fails: `Feed.date_from_rss_item` equals the spec's
cascade, a successful `pubDate` parse wins outright, and when both elements
fail and no link matches the pattern the date is unknown. -/
theorem date_from_rss_item_order :
    (∀ item : RssItem, Feed.date_from_rss_item item = date_resolve_spec item)
    ∧ (∀ (item : RssItem) (t : String) (d : Date), item.pubDate = some t → t ≠ "" →
        dateutil_parse t = some d → Feed.date_from_rss_item item = some d)
    ∧ (∀ item : RssItem, tryDateText item.pubDate = none → tryDateText item.pubdate = none →
        (∀ lt, item.link = some lt → known_link_pattern lt = false) →
        Feed.date_from_rss_item item = none) := by
  refine ⟨date_chain_eq, fun item t d hpd ht hparse => ?_, fun item h1 h2 h3 => ?_⟩
  · rw [date_chain_eq]
    unfold date_resolve_spec
    simp [tryDateText, hpd, ht, hparse, Option.orElse]
  · rw [date_chain_eq]
    unfold date_resolve_spec
    rw [h1, h2]
    cases hl : item.link with
    | none => rfl
    | some lt =>
      show Option.orElse none _ = none
      simp [Option.orElse, h3 lt hl]

/-- Witness for `date_from_rss_item_order`: the `pubDate` branch at the
scenario item, and the all-fail branch at an item with no date sources. -/
theorem date_from_rss_item_order_witness :
    Feed.date_from_rss_item rssScenarioItem = some ⟨2024, 1, 1⟩
    ∧ Feed.date_from_rss_item ⟨some "http://x.gov/a", none, none, none⟩ = none :=
  ⟨date_from_rss_item_order.2.1 rssScenarioItem "Mon, 01 Jan 2024 00:00:00 GMT" ⟨2024, 1, 1⟩
      rfl (by decide) (by decide),
   date_from_rss_item_order.2.2 ⟨some "http://x.gov/a", none, none, none⟩ rfl rfl
      (fun lt hl => by cases hl; decide)⟩

/-- C5 counterexample: the link "httpdocs/x" has no scheme, yet
`Utils.absolute_link` returns it unchanged (the code tests for the string
prefix "http", not for scheme presence) instead of the standard URL-join of
base and link. -/
theorem absolute_link_prefix_not_scheme :
    (urlparse "httpdocs/x").scheme = ""
    ∧ Utils.absolute_link "http://a.gov/b/" "httpdocs/x" = "httpdocs/x"
    ∧ urljoin "http://a.gov/b/" "httpdocs/x" = "http://a.gov/b/httpdocs/x"
    ∧ ("httpdocs/x" : String) ≠ "http://a.gov/b/httpdocs/x" := by
  refine ⟨by decide, by decide, by decide, by decide⟩

theorem splitFirst_append (c : Char) :
    ∀ (xs ys : List Char), c ∉ xs → splitFirst c (xs ++ c :: ys) = some (xs, ys)
  | [], ys, _ => by simp [splitFirst]
  | x :: xs, ys, h => by
    have hx : ¬(x = c) := fun he => h (he ▸ List.mem_cons_self x xs)
    have hxs : c ∉ xs := fun hm => h (List.mem_cons_of_mem x hm)
    simp only [List.cons_append, splitFirst, if_neg hx, List.append_eq,
      splitFirst_append c xs ys hxs]

theorem takeWhile_append_stop (p : Char → Bool) :
    ∀ (xs ys : List Char), xs.all p = true →
      (ys = [] ∨ ∃ c cs, ys = c :: cs ∧ p c = false) →
      (xs ++ ys).takeWhile p = xs
  | [], ys, _, hy => by
    rcases hy with rfl | ⟨c, cs, rfl, hc⟩
    · rfl
    · simp [List.takeWhile, hc]
  | x :: xs, ys, hx, hy => by
    rw [List.all_cons, Bool.and_eq_true] at hx
    simp [List.takeWhile, List.cons_append, hx.1,
      takeWhile_append_stop p xs ys hx.2 hy]

theorem validScheme_no_colon (sch : List Char) (hv : validSchemeCs sch = true) :
    ':' ∉ sch := by
  intro hm
  cases sch with
  | nil => cases hm
  | cons c cs =>
    rw [validSchemeCs, Bool.and_eq_true] at hv
    rcases List.mem_cons.mp hm with rfl | hm2
    · exact absurd hv.1 (by decide)
    · exact absurd (List.all_eq_true.mp hv.2 _ hm2) (by decide)

theorem urlparse_asString_scheme_netloc (sch nl tail : List Char)
    (hv : validSchemeCs sch = true)
    (hnl : nl.all (fun c => !netStop c) = true)
    (htail : tail = [] ∨ ∃ c cs, tail = c :: cs ∧ netStop c = true) :
    (urlparse (List.asString (sch ++ ':' :: '/' :: '/' :: (nl ++ tail)))).netloc
      = nl.asString := by
  have hsplit := splitFirst_append ':' sch ('/' :: '/' :: (nl ++ tail))
    (validScheme_no_colon sch hv)
  have htw : (nl ++ tail).takeWhile (fun c => !netStop c) = nl := by
    refine takeWhile_append_stop _ nl tail hnl ?_
    rcases htail with rfl | ⟨c, cs, rfl, hc⟩
    · exact Or.inl rfl
    · exact Or.inr ⟨c, cs, rfl, by simp [hc]⟩
  unfold urlparse
  simp only [List.asString]
  rw [hsplit]
  norm_num [startsWithCs, htw]
  rw [if_pos hv]
  simp [htw]
  rw [if_pos (show startsWithCs ('/' :: '/' :: (nl ++ tail)) ['/', '/'] = true by
    simp [startsWithCs])]

theorem urlparse_asString_scheme_no_netloc (sch tail : List Char)
    (hv : validSchemeCs sch = true)
    (htail : startsWithCs tail ['/', '/'] = false) :
    (urlparse (List.asString (sch ++ ':' :: tail))).netloc = "" := by
  have hsplit := splitFirst_append ':' sch tail (validScheme_no_colon sch hv)
  unfold urlparse
  simp only [List.asString]
  rw [hsplit]
  norm_num
  rw [if_pos hv]
  simp [htail]

theorem slashify_stop (a : List Char) :
    (if a ≠ [] && !startsWithCs a ['/'] then '/' :: a else a) = []
    ∨ ∃ x xs, (if a ≠ [] && !startsWithCs a ['/'] then '/' :: a else a) = x :: xs
        ∧ netStop x = true := by
  rcases a with _ | ⟨x, xs⟩
  · left; simp
  · by_cases hx : x = '/'
    · subst hx
      right
      exact ⟨'/', xs, by simp [startsWithCs], by decide⟩
    · right
      exact ⟨'/', x :: xs, by simp [startsWithCs, hx], by decide⟩

theorem stop_append (a b : List Char)
    (ha : a = [] ∨ ∃ x xs, a = x :: xs ∧ netStop x = true)
    (hb : b = [] ∨ ∃ x xs, b = x :: xs ∧ netStop x = true) :
    a ++ b = [] ∨ ∃ x xs, a ++ b = x :: xs ∧ netStop x = true := by
  rcases ha with rfl | ⟨x, xs, rfl, hx⟩
  · simpa using hb
  · exact Or.inr ⟨x, xs ++ b, by simp, hx⟩

theorem not_slashslash_append (a b : List Char)
    (ha : startsWithCs a ['/', '/'] = false)
    (hb : b = [] ∨ ∃ x xs, b = x :: xs ∧ (x = '?' ∨ x = '#')) :
    startsWithCs (a ++ b) ['/', '/'] = false := by
  rcases a with _ | ⟨x, xs⟩
  · rcases hb with rfl | ⟨y, ys, rfl, hy⟩
    · rfl
    · rcases hy with rfl | rfl <;> simp [startsWithCs]
  · rcases xs with _ | ⟨x2, xs2⟩
    · rcases hb with rfl | ⟨y, ys, rfl, hy⟩
      · simpa using ha
      · rcases hy with rfl | rfl <;> simp [startsWithCs]
    · simp only [startsWithCs, List.cons_append] at ha ⊢
      exact ha

theorem netlocOf_urlunparse (p : UrlParts)
    (hv : validSchemeCs p.scheme.data = true)
    (hn : netlocWf p.netloc = true) :
    netlocOf (urlunparse p) = p.netloc := by
  obtain ⟨sch, nl, pa, q, f⟩ := p
  simp only at hv hn
  have hne : sch ≠ "" := by
    intro h
    subst h
    exact absurd hv (by decide)
  have hnl : nl.data.all (fun c => !netStop c) = true := hn
  unfold netlocOf urlunparse urlunparseCs
  dsimp only
  rw [if_pos hne]
  have hq' : ∀ b : List Char, (if q ≠ "" then b ++ '?' :: q.data else b)
      = b ++ (if q ≠ "" then '?' :: q.data else []) := by
    intro b
    by_cases hq : q = "" <;> simp [hq]
  have hf' : ∀ b : List Char, (if f ≠ "" then b ++ '#' :: f.data else b)
      = b ++ (if f ≠ "" then '#' :: f.data else []) := by
    intro b
    by_cases hf : f = "" <;> simp [hf]
  have hqstop : (if q ≠ "" then '?' :: q.data else []) = []
      ∨ ∃ x xs, (if q ≠ "" then '?' :: q.data else []) = x :: xs ∧ netStop x = true := by
    by_cases hq : q = ""
    · simp [hq]
    · right; exact ⟨'?', q.data, by simp [hq], by decide⟩
  have hfstop : (if f ≠ "" then '#' :: f.data else []) = []
      ∨ ∃ x xs, (if f ≠ "" then '#' :: f.data else []) = x :: xs ∧ netStop x = true := by
    by_cases hf : f = ""
    · simp [hf]
    · right; exact ⟨'#', f.data, by simp [hf], by decide⟩
  have hqqf : (if q ≠ "" then '?' :: q.data else []) = []
      ∨ ∃ x xs, (if q ≠ "" then '?' :: q.data else []) = x :: xs ∧ (x = '?' ∨ x = '#') := by
    by_cases hq : q = ""
    · simp [hq]
    · right; exact ⟨'?', q.data, by simp [hq], Or.inl rfl⟩
  have hfqf : (if f ≠ "" then '#' :: f.data else []) = []
      ∨ ∃ x xs, (if f ≠ "" then '#' :: f.data else []) = x :: xs ∧ (x = '?' ∨ x = '#') := by
    by_cases hf : f = ""
    · simp [hf]
    · right; exact ⟨'#', f.data, by simp [hf], Or.inr rfl⟩
  by_cases hA : (nl ≠ "" || startsWithCs pa.data ['/', '/']) = true
  · rw [if_pos hA]
    rw [hq', hf']
    have hP2 := slashify_stop pa.data
    have htail := stop_append _ _ hP2 (stop_append _ _ hqstop hfstop)
    have := urlparse_asString_scheme_netloc sch.data nl.data
      ((if pa.data ≠ [] && !startsWithCs pa.data ['/'] then '/' :: pa.data else pa.data)
        ++ ((if q ≠ "" then '?' :: q.data else []) ++ (if f ≠ "" then '#' :: f.data else [])))
      hv hnl (by simpa [List.append_assoc] using htail)
    simpa [List.append_assoc] using this
  · rw [if_neg hA]
    rw [Bool.or_eq_true, not_or] at hA
    obtain ⟨hA1, hA2⟩ := hA
    have h1 : nl = "" := by simpa using hA1
    have h2 : startsWithCs pa.data ['/', '/'] = false := Bool.eq_false_iff.mpr hA2
    subst h1
    rw [hq', hf']
    have hqf := not_slashslash_append pa.data
      ((if q ≠ "" then '?' :: q.data else []) ++ (if f ≠ "" then '#' :: f.data else [])) h2 ?side
    case side =>
      rcases hqqf with hq0 | ⟨x, xs, hx, hxc⟩
      · rw [hq0]
        simpa using hfqf
      · exact Or.inr ⟨x, xs ++ (if f ≠ "" then '#' :: f.data else []),
          by rw [hx]; simp, hxc⟩
    have := urlparse_asString_scheme_no_netloc sch.data
      (pa.data ++ ((if q ≠ "" then '?' :: q.data else []) ++ (if f ≠ "" then '#' :: f.data else [])))
      hv hqf
    simpa [List.append_assoc] using this

theorem mergeParts_netloc_of_uses (scheme : String) (b u : UrlParts)
    (hc : uses_netloc.contains scheme = true) :
    (mergeParts scheme b u).netloc = b.netloc := by
  unfold mergeParts
  by_cases hup : u.path = "" <;> simp [hup, hc] <;>
    exact fun h => absurd (by simpa using hc) h

theorem mergeParts_scheme (scheme : String) (b u : UrlParts) :
    (mergeParts scheme b u).scheme = scheme := by
  unfold mergeParts
  by_cases hup : u.path = "" <;> simp [hup]

/-- C5 (amended): `Utils.absolute_link` returns the link as-is exactly when
it starts with the string "http" (a prefix test, not a scheme test — so a
schemeless link such as "httpdocs/x" is also passed through), and otherwise
returns the standard `urljoin` of base and link; when the link supplies
neither a scheme nor an authority and the base is an absolute http or https
URL, the joined result's authority is the base's authority. -/
theorem absolute_link_spec :
    (∀ base link, pyStartsWith link "http" = true → Utils.absolute_link base link = link)
    ∧ (∀ base link, pyStartsWith link "http" = false →
        Utils.absolute_link base link = urljoin base link)
    ∧ (∀ base link,
        ((urlparse base).scheme = "http" ∨ (urlparse base).scheme = "https") →
        netlocWf (urlparse base).netloc = true →
        (urlparse link).scheme = "" → (urlparse link).netloc = "" →
        pyStartsWith link "http" = false →
        netlocOf (Utils.absolute_link base link) = netlocOf base) := by
  refine ⟨fun base link h => ?_, fun base link h => ?_,
    fun base link hbs hbn hls hln hlp => ?_⟩
  · unfold Utils.absolute_link
    rw [if_pos h]
  · unfold Utils.absolute_link
    rw [if_neg (by simp [h])]
  · unfold Utils.absolute_link
    rw [if_neg (by simp [hlp])]
    have hrel : uses_relative.contains (urlparse base).scheme = true := by
      rcases hbs with h | h <;> rw [h] <;> decide
    have hnet : uses_netloc.contains (urlparse base).scheme = true := by
      rcases hbs with h | h <;> rw [h] <;> decide
    have hvalid : validSchemeCs (urlparse base).scheme.data = true := by
      rcases hbs with h | h <;> rw [h] <;> decide
    have hbne : base ≠ "" := by
      intro hb
      rw [hb] at hbs
      rcases hbs with h | h <;> exact absurd h (by decide)
    unfold urljoin
    rw [if_neg hbne]
    by_cases hle : link = ""
    · rw [if_pos hle]
    · rw [if_neg hle]
      dsimp only
      rw [hls, hln]
      rw [if_pos (show ("" : String) = "" from rfl)]
      rw [if_neg (show ¬(decide ((urlparse base).scheme ≠ (urlparse base).scheme)
            || !uses_relative.contains (urlparse base).scheme) = true by simpa using hrel)]
      rw [if_neg (show ¬(uses_netloc.contains (urlparse base).scheme
            && decide (("" : String) ≠ "")) = true by simp)]
      rw [show netlocOf base = (urlparse base).netloc from rfl]
      rw [← mergeParts_netloc_of_uses (urlparse base).scheme (urlparse base) (urlparse link) hnet]
      exact netlocOf_urlunparse _
        (by rw [mergeParts_scheme]; exact hvalid)
        (by rw [mergeParts_netloc_of_uses _ _ _ hnet]; exact hbn)

/-- Witness for `absolute_link_spec` at concrete inputs for all three
conjuncts, exercising the authority clause at both an http and an https
base. -/
theorem absolute_link_spec_witness :
    Utils.absolute_link "http://a.gov/b/" "http://other.com/p" = "http://other.com/p"
    ∧ Utils.absolute_link "https://x.gov/a/b" "media/c" = urljoin "https://x.gov/a/b" "media/c"
    ∧ netlocOf (Utils.absolute_link "http://a.gov/b/" "docs/x") = netlocOf "http://a.gov/b/"
    ∧ netlocOf (Utils.absolute_link "https://x.gov/a/b" "media/c") = netlocOf "https://x.gov/a/b" :=
  ⟨absolute_link_spec.1 "http://a.gov/b/" "http://other.com/p" (by decide),
   absolute_link_spec.2.1 "https://x.gov/a/b" "media/c" (by decide),
   absolute_link_spec.2.2 "http://a.gov/b/" "docs/x" (Or.inl (by decide)) (by decide)
     (by decide) (by decide) (by decide),
   absolute_link_spec.2.2 "https://x.gov/a/b" "media/c" (Or.inr (by decide)) (by decide)
     (by decide) (by decide) (by decide)⟩
